import Mathlib

/-!
Verification development for the bvzdisplaylib repository
(src/bvzdisplaylib/displaylib.py), a terminal display helper library.

Modelling conventions:
* Python strings are Lean `String` values; character-level work is done on
  `String.data` (`List Char`).  All strings in scope are ASCII, so
  upper-casing is done by the per-character `pyUpper` below.
* Python floats are modelled by exact rational arithmetic (`ℚ`).  The
  quantities this library rounds (percentages with one decimal digit,
  small integer counts) are exactly representable, so the rational model
  coincides with IEEE doubles on the inputs treated here.
* Python `round` (banker's rounding, half to even) is `pyRoundInt`;
  `round(x, 1)` is `pyRound1`; `int(...)` applied to a float is `pyTrunc`
  (truncation toward zero); `math.floor` is `Int.floor`.
* Writes to stdout are modelled by returning the concatenation of all
  written characters; reads from stdin by consuming a list of input lines.
-/

/-! ### Color constants (displaylib.py lines 12-29) -/

def BLACK : String := "\x1b[30m"

def RED : String := "\x1b[31m"

def GREEN : String := "\x1b[32m"

def YELLOW : String := "\x1b[33m"

def BLUE : String := "\x1b[34m"

def MAGENTA : String := "\x1b[35m"

def CYAN : String := "\x1b[36m"

def WHITE : String := "\x1b[37m"

def BRIGHT_RED : String := "\x1b[91m"

def BRIGHT_GREEN : String := "\x1b[92m"

def BRIGHT_YELLOW : String := "\x1b[93m"

def BRIGHT_BLUE : String := "\x1b[94m"

def BRIGHT_MAGENTA : String := "\x1b[95m"

def BRIGHT_CYAN : String := "\x1b[96m"

def BRIGHT_WHITE : String := "\x1b[97m"

def ENDC : String := "\x1b[0m"

def BG_RED : String := "\u001b[41m"

def BLINK : String := "\x1b[5m"

/-- Python `str.upper` (all strings in this library are ASCII, where
upper-casing is per character). -/
def pyUpper (s : String) : String :=
  String.mk (s.data.map Char.toUpper)

/-! ### Python numeric primitives -/

/-- Python `int(x)` on a float: truncation toward zero. -/
def pyTrunc (q : ℚ) : ℤ :=
  if 0 ≤ q then ⌊q⌋ else -⌊-q⌋

/-- Python `round(x)` on a float: round half to even (banker's rounding). -/
def pyRoundInt (q : ℚ) : ℤ :=
  if q - ⌊q⌋ < 1/2 then ⌊q⌋
  else if 1/2 < q - ⌊q⌋ then ⌊q⌋ + 1
  else if 2 ∣ ⌊q⌋ then ⌊q⌋ else ⌊q⌋ + 1

/-- Python `round(x, 1)` on a float: round half to even at one decimal. -/
def pyRound1 (q : ℚ) : ℚ :=
  (pyRoundInt (q * 10) : ℚ) / 10

/-! ### Python `str.replace` for two-character patterns

All three `replace` calls in `format_string` (displaylib.py lines 132-134)
use a two-character pattern, so the replace primitive is embedded for
patterns of exactly two characters: leftmost-first, non-overlapping. -/

def replace2 (a b : Char) (new : List Char) : List Char → List Char
  | [] => []
  | [c] => [c]
  | c :: d :: rest =>
    if c = a ∧ d = b then new ++ replace2 a b new rest
    else c :: replace2 a b new (d :: rest)

/-! ### Python `str.format` with keyword arguments

`format_string` calls `str.format` with exactly the palette keywords
(displaylib.py lines 137-156).  The embedding below models CPython's
formatter for calls whose arguments are all keywords and whose replacement
fields carry no conversion and no format specification (the only shape
this library produces): literal text is copied, `\x7b\x7b` and `\x7d\x7d`
are escapes for single braces, a field whose name is empty or all digits
is a positional reference and raises IndexError because no positional
arguments are supplied, a named field is looked up among the keywords and
raises KeyError when absent, and an unterminated or stray brace raises
ValueError.  The formatter works left to right and raises at the first
failing field.  Recursion is driven by a fuel argument so that the
function reduces inside the kernel; `pyFormatKw` supplies fuel equal to
the length of the input, which is always sufficient because every step
consumes at least one character. -/

inductive PyErr where
  | keyError : PyErr
  | indexError : PyErr
  | valueError : PyErr
  deriving DecidableEq, Repr

/-- The palette of recognized placeholder names, in the order the keywords
are passed to `str.format` in displaylib.py lines 137-156. -/
def palette : List (String × String) :=
  [("BLACK", BLACK), ("RED", RED), ("GREEN", GREEN), ("YELLOW", YELLOW),
   ("BLUE", BLUE), ("MAGENTA", MAGENTA), ("CYAN", CYAN), ("WHITE", WHITE),
   ("BRIGHT_RED", BRIGHT_RED), ("BRIGHT_GREEN", BRIGHT_GREEN),
   ("BRIGHT_YELLOW", BRIGHT_YELLOW), ("BRIGHT_BLUE", BRIGHT_BLUE),
   ("BRIGHT_MAGENTA", BRIGHT_MAGENTA), ("BRIGHT_CYAN", BRIGHT_CYAN),
   ("BRIGHT_WHITE", BRIGHT_WHITE), ("COLOR_NONE", ENDC),
   ("BG_RED", BG_RED), ("BLINK", BLINK)]

def paletteLookup (name : String) : Option String :=
  palette.lookup name

/-- Scan a replacement field after its opening brace: collect the field
name up to the closing brace.  `none` models the ValueError CPython raises
for an unterminated field or a brace inside a field name. -/
def parseField : List Char → Option (List Char × List Char)
  | [] => none
  | c :: r =>
    if c = '}' then some ([], r)
    else if c = '{' then none
    else match parseField r with
      | none => none
      | some (name, rest) => some (c :: name, rest)

def pyFormatKwF : ℕ → List Char → Except PyErr (List Char)
  | _, [] => .ok []
  | 0, _ :: _ => .error .valueError
  | f + 1, c :: r =>
    if c = '{' then
      if r.head? = some '{' then Except.map (fun l => '{' :: l) (pyFormatKwF f r.tail)
      else
        match parseField r with
        | none => .error .valueError
        | some (name, rest) =>
          if name.isEmpty || name.all Char.isDigit then .error .indexError
          else match paletteLookup (String.mk name) with
            | some code => Except.map (fun l => code.data ++ l) (pyFormatKwF f rest)
            | none => .error .keyError
    else if c = '}' then
      if r.head? = some '}' then Except.map (fun l => '}' :: l) (pyFormatKwF f r.tail)
      else .error .valueError
    else Except.map (fun l => c :: l) (pyFormatKwF f r)

/-- A character that may appear in a Python identifier. -/
def isIdentChar (c : Char) : Bool :=
  c.isAlpha || c.isDigit || c = '_'

/-- Well-formedness of a template for the amended unknown-placeholder
claim: every replacement field is a braced name made of identifier
characters, nonempty and not entirely digits (so the formatter treats it
as a keyword reference, never as a positional one), with no stray or
doubled braces.  Fueled like `pyFormatKwF`. -/
def wfNamedF : ℕ → List Char → Bool
  | _, [] => true
  | 0, _ :: _ => false
  | f + 1, c :: r =>
    if c = '{' then
      if r.head? = some '{' then false
      else
        match parseField r with
        | none => false
        | some (name, rest) =>
          !name.isEmpty && name.all isIdentChar && !name.all Char.isDigit && wfNamedF f rest
    else if c = '}' then false
    else wfNamedF f r

/-- Whether some replacement field of the template names a symbol outside
the palette.  Fueled like `pyFormatKwF`. -/
def hasUnknownF : ℕ → List Char → Bool
  | _, [] => false
  | 0, _ :: _ => false
  | f + 1, c :: r =>
    if c = '{' then
      if r.head? = some '{' then false
      else
        match parseField r with
        | none => false
        | some (name, rest) =>
          (paletteLookup (String.mk name)).isNone || hasUnknownF f rest
    else if c = '}' then false
    else hasUnknownF f r

def wfNamed (s : List Char) : Bool :=
  wfNamedF s.length s

def hasUnknown (s : List Char) : Bool :=
  hasUnknownF s.length s

def pyFormatKw (s : List Char) : Except PyErr (List Char) :=
  pyFormatKwF s.length s

/-! ### format_string (displaylib.py lines 121-162) -/

/-- The three sequential `replace` calls of displaylib.py lines 132-134:
the literal two-character sequence backslash-n becomes a newline, and
doubled braces collapse to single braces. -/
def collapse (msg : String) : String :=
  String.mk (replace2 '}' '}' ['}']
    (replace2 '{' '{' ['{']
      (replace2 '\\' 'n' ['\n'] msg.data)))

/-- displaylib.py lines 121-162.  The `try` block catches exactly
`KeyError`, leaving the collapsed string unsubstituted; any other
exception from the substitution propagates to the caller.  The reset code
`ENDC` is appended on every path that returns normally. -/
def format_string (msg : String) : Except PyErr String :=
  match pyFormatKw (collapse msg).data with
  | .ok l => .ok (String.mk l ++ ENDC)
  | .error .keyError => .ok (collapse msg ++ ENDC)
  | .error e => .error e

/-! ### format_boolean (displaylib.py lines 259-289) -/

/-- The argument of `format_boolean`: a Python bool or a Python string
(the assert on line 277 restricts the string to TRUE or FALSE, case
insensitively). -/
inductive PyBoolStr where
  | pybool : Bool → PyBoolStr
  | pystr : String → PyBoolStr
  deriving DecidableEq

/-- Python `str(value)` for the argument of `format_boolean`. -/
def pyStr : PyBoolStr → String
  | .pybool true => "True"
  | .pybool false => "False"
  | .pystr s => s

/-- displaylib.py lines 259-289.  Note that the body never reads
`invert_color` (the parameter is accepted on line 261 and then unused).
The template built on line 287 always formats successfully, so the
`.error` fallback below is unreachable. -/
def format_boolean (value : PyBoolStr) (colorize : Bool) (invert_color : Bool) : String :=
  let sv := pyUpper (pyStr value)
  let color := if sv = "TRUE" then "BRIGHT_GREEN" else "BRIGHT_RED"
  let return_value := if sv = "TRUE" then "Yes" else "No"
  if colorize then
    match format_string ("\x7b\x7b" ++ color ++ "\x7d\x7d" ++ return_value) with
    | .ok s => s
    | .error _ => return_value
  else return_value

/-! ### display_progress (displaylib.py lines 33-103) -/

/-- displaylib.py line 67: `percent = round((count * 1.0) / total * 100, 1)`. -/
def percent_of (count total : ℕ) : ℚ :=
  pyRound1 ((count : ℚ) / (total : ℚ) * 100)

/-- displaylib.py lines 74-75: the number of completed chunks,
`int(round(percent / (100 / width)))`. -/
def done_count (percent : ℚ) (width : ℕ) : ℤ :=
  pyRoundInt (percent / (100 / (width : ℚ)))

/-- displaylib.py line 74: `completed_char * int(round(percent / (100 / width), 0))`. -/
def done_str_of (percent : ℚ) (width : ℕ) (completed_char : Char) : String :=
  String.mk (List.replicate (done_count percent width).toNat completed_char)

/-- displaylib.py line 75: `empty_char * (width - int(round(percent / (100 / width))))`.
Multiplying a Python string by a negative count yields the empty string,
which `Int.toNat` reproduces. -/
def empty_str_of (percent : ℚ) (width : ℕ) (empty_char : Char) : String :=
  String.mk (List.replicate ((width : ℤ) - done_count percent width).toNat empty_char)

/-- displaylib.py line 78: the highlighted `(count of total)` suffix. -/
def count_str_of (count total : ℕ) : String :=
  " (" ++ BRIGHT_WHITE ++ toString count ++ ENDC ++ " of " ++ BRIGHT_WHITE ++
    toString total ++ ENDC ++ ")"

/-- Python `str()` of a float known to be a nonnegative multiple of 0.1
(every percent in this library is the result of `round(x, 1)` on a
nonnegative value): the shortest decimal is the integer part, a dot, and
one tenths digit. -/
def pyStrFloat1 (q : ℚ) : String :=
  toString ((⌊q * 10⌋).toNat / 10) ++ "." ++ toString ((⌊q * 10⌋).toNat % 10)

/-- displaylib.py line 81: the percent label,
spaces times `(4 - len(str(int(math.floor(percent)))))`, then
`str(percent)`, then a percent sign, then one space.  Percent is
nonnegative here, so `int(math.floor(percent))` is `⌊percent⌋.toNat`, and
the clamped `ℕ` subtraction matches Python repeating a string a negative
number of times. -/
def percent_str_of (percent : ℚ) : String :=
  String.mk (List.replicate (4 - (toString (⌊percent⌋).toNat).length) ' ') ++
    pyStrFloat1 percent ++ "%" ++ " "

/-- displaylib.py line 85: the left slice bound,
`int(len(bar) / 2 - math.floor(len(percent_str) / 2)) + 2`, as a function
of the two lengths.  The float division and the truncating `int()` are
kept as the source wrote them; the result is nonnegative wherever the
claims evaluate it, so the final `Int.toNat` agrees with Python
indexing. -/
def slice_li (barLen psLen : ℕ) : ℕ :=
  (pyTrunc ((barLen : ℚ) / 2 - (⌊(psLen : ℚ) / 2⌋ : ℤ)) + 2).toNat

/-- displaylib.py line 86: the right slice bound,
`int(len(bar) / 2 + math.ceil(len(percent_str) / 2)) + 2`. -/
def slice_ri (barLen psLen : ℕ) : ℕ :=
  (pyTrunc ((barLen : ℚ) / 2 + (⌈(psLen : ℚ) / 2⌉ : ℤ)) + 2).toNat

/-- displaylib.py lines 84-95: the bracketed bar with the label spliced
in at the offset midpoint, the count suffix and the postpend string.
`width` here is the already-normalized (even) width. -/
def progress_line (count total : ℕ) (percent : ℚ) (width : ℕ)
    (completed_char empty_char : Char) (postpend_str : String) : String :=
  let bar := "[" ++ done_str_of percent width completed_char ++
    empty_str_of percent width empty_char ++ "]"
  let ps := percent_str_of percent
  String.mk (bar.data.take (slice_li bar.length ps.length)) ++ BRIGHT_YELLOW ++ ps ++
    ENDC ++ String.mk (bar.data.drop (slice_ri bar.length ps.length)) ++
    count_str_of count total ++ postpend_str

/-- The observable outcome of one `display_progress` call: every character
written to stdout, in order, and the returned percent. -/
structure ProgressResult where
  out : String
  ret : ℚ
  deriving DecidableEq

/-- displaylib.py lines 33-103.  Odd widths are decremented (line 63); if
the percent equals `old_percent` and is nonzero nothing is written and the
percent is returned (lines 70-71); otherwise the composed line is written
followed by one backspace per character of the line (lines 98-100). -/
def display_progress (count total : ℕ) (old_percent : Option ℚ) (width : ℕ)
    (completed_char empty_char : Char) (postpend_str : String) : ProgressResult :=
  let width := if width % 2 ≠ 0 then width - 1 else width
  let percent := percent_of count total
  if old_percent = some percent ∧ percent ≠ 0 then ⟨"", percent⟩
  else
    let line := progress_line count total percent width completed_char empty_char postpend_str
    ⟨line ++ String.mk (List.replicate line.length '\x08'), percent⟩

/-! ### Visible characters

Measurement used to interpret the spec notion of a visible character: the
characters remaining after deleting every ANSI escape sequence (an ESC
followed by everything through the terminating letter m). -/

def dropThroughM : List Char → List Char
  | [] => []
  | c :: r => if c = 'm' then r else dropThroughM r

def stripAnsiF : ℕ → List Char → List Char
  | _, [] => []
  | 0, l => l
  | f + 1, c :: r =>
    if c = '\x1b' then stripAnsiF f (dropThroughM r)
    else c :: stripAnsiF f r

def stripAnsi (s : List Char) : List Char :=
  stripAnsiF s.length s

/-! ### multiple_choice_user_input (displaylib.py lines 179-255) -/

/-- displaylib.py line 223: the uppercased alternate answer keys. -/
def mc_alt_options (alt : List (String × String)) : List String :=
  alt.map (fun kv => pyUpper kv.1)

/-- displaylib.py lines 225-228: the alternate answer dictionary rekeyed
by uppercased key.  Python dict assignment overwrites, so on clashing
uppercased keys the last entry wins; the reversed association list gives
the same lookup. -/
def mc_alt_upper (alt : List (String × String)) : List (String × String) :=
  (alt.map (fun kv => (pyUpper kv.1, kv.2))).reverse

/-- displaylib.py lines 244-250: one read from stdin; an empty input with
a default set becomes the uppercased default. -/
def mc_resolved (default : Option String) (line : String) : String :=
  match default with
  | some d => if line = "" then pyUpper d else line
  | none => line

/-- displaylib.py lines 235-250: the prompt loop.  The loop keeps reading
until the uppercased result is a member of `legal_answers` (as written,
line 236) or of the uppercased alternate keys.  Stdin is a list of lines;
`none` means the loop is still waiting for input when the lines run out. -/
def mc_loop (legal_answers alt_options : List String) (default : Option String) :
    List String → String → Option String
  | [], result =>
    if pyUpper result ∈ legal_answers ∨ pyUpper result ∈ alt_options then some result
    else none
  | line :: rest, result =>
    if pyUpper result ∈ legal_answers ∨ pyUpper result ∈ alt_options then some result
    else mc_loop legal_answers alt_options default rest (mc_resolved default line)

/-- displaylib.py lines 179-255: the loop followed by alias resolution
(lines 252-253) and the final uppercasing (line 255).  The prompt text and
blank lines only affect what is printed, not the returned answer, and are
omitted.  The `getD` fallback is unreachable: the branch runs only when
the uppercased result is a member of the alternate options, in which case
the lookup succeeds. -/
def multiple_choice_user_input (legal_answers : List String)
    (alternate_legal_answers : List (String × String))
    (default : Option String) (stdin : List String) : Option String :=
  (mc_loop legal_answers (mc_alt_options alternate_legal_answers) default stdin "").map
    (fun result =>
      if pyUpper result ∈ mc_alt_options alternate_legal_answers then
        pyUpper (((mc_alt_upper alternate_legal_answers).lookup (pyUpper result)).getD result)
      else pyUpper result)

/-- Whether the two-character pattern `a b` occurs in a list. -/
def hasPair (a b : Char) : List Char → Bool
  | [] => false
  | [_] => false
  | c :: d :: rest => if c = a ∧ d = b then true else hasPair a b (d :: rest)

/-! ## Helper lemmas -/

theorem pyRoundInt_intCast (n : ℤ) : pyRoundInt (n : ℚ) = n := by
  unfold pyRoundInt
  rw [Int.floor_intCast]
  norm_num

theorem pyRound1_intCast (n : ℤ) : pyRound1 (n : ℚ) = n := by
  unfold pyRound1
  have h : (n : ℚ) * 10 = ((n * 10 : ℤ) : ℚ) := by push_cast; ring
  rw [h, pyRoundInt_intCast]
  push_cast
  field_simp

theorem pyTrunc_intCast (n : ℤ) : pyTrunc (n : ℚ) = n := by
  unfold pyTrunc
  split
  · exact Int.floor_intCast n
  · rw [← Int.cast_neg, Int.floor_intCast, neg_neg]

theorem floor_half (m : ℕ) : ⌊(m : ℚ) / 2⌋ = ((m / 2 : ℕ) : ℤ) := by
  rw [Int.floor_eq_iff]
  constructor
  · rw [le_div_iff (by norm_num : (0:ℚ) < 2)]
    exact_mod_cast (by omega : m / 2 * 2 ≤ m)
  · rw [div_lt_iff (by norm_num : (0:ℚ) < 2)]
    push_cast
    exact_mod_cast (by omega : m < (m / 2 + 1) * 2)

theorem ceil_half (m : ℕ) : ⌈(m : ℚ) / 2⌉ = (((m + 1) / 2 : ℕ) : ℤ) := by
  have h1q : ((((m + 1) / 2 : ℕ) : ℤ) : ℚ) * 2 ≤ (m : ℚ) + 1 := by
    exact_mod_cast (by omega : (m + 1) / 2 * 2 ≤ m + 1)
  have h2q : (m : ℚ) ≤ ((((m + 1) / 2 : ℕ) : ℤ) : ℚ) * 2 := by
    exact_mod_cast (by omega : m ≤ (m + 1) / 2 * 2)
  rw [Int.ceil_eq_iff]
  constructor
  · rw [lt_div_iff (by norm_num : (0:ℚ) < 2)]
    linarith
  · rw [div_le_iff (by norm_num : (0:ℚ) < 2)]
    linarith

theorem slice_li_eq (n m : ℕ) (h : 2 * (m / 2) ≤ n) :
    slice_li n m = n / 2 - m / 2 + 2 := by
  unfold slice_li pyTrunc
  rw [floor_half]
  have hk : (((m / 2 : ℕ) : ℤ) : ℚ) ≤ (n : ℚ) / 2 := by
    rw [le_div_iff (by norm_num : (0:ℚ) < 2)]
    exact_mod_cast (by omega : m / 2 * 2 ≤ n)
  rw [if_pos (by linarith : (0:ℚ) ≤ (n : ℚ) / 2 - (((m / 2 : ℕ) : ℤ) : ℚ))]
  rw [Int.floor_sub_int, floor_half]
  omega

theorem slice_ri_eq (n m : ℕ) : slice_ri n m = n / 2 + (m + 1) / 2 + 2 := by
  unfold slice_ri pyTrunc
  rw [ceil_half]
  have hk : (0:ℚ) ≤ (n : ℚ) / 2 + ((((m + 1) / 2 : ℕ) : ℤ) : ℚ) := by positivity
  rw [if_pos hk, Int.floor_add_int, floor_half]
  omega

theorem percent_of_50_100 : percent_of 50 100 = 50 := by
  unfold percent_of
  have h : ((50:ℕ) : ℚ) / ((100:ℕ) : ℚ) * 100 = ((50 : ℤ) : ℚ) := by norm_num
  rw [h, pyRound1_intCast]
  norm_num

theorem done_count_50_10 : done_count 50 10 = 5 := by
  unfold done_count
  have h : (50 : ℚ) / (100 / ((10:ℕ) : ℚ)) = ((5:ℤ) : ℚ) := by norm_num
  rw [h, pyRoundInt_intCast]

theorem percent_str_of_50 : percent_str_of 50 = "  50.0% " := by
  have h1 : ⌊(50:ℚ)⌋ = 50 := by norm_num
  have h2 : ⌊(50:ℚ) * 10⌋ = 500 := by norm_num
  unfold percent_str_of pyStrFloat1
  rw [h1, h2]
  decide

theorem progress_line_eval_50 :
    progress_line 50 100 50 10 '#' '.' "" =
      "[###" ++ BRIGHT_YELLOW ++ "  50.0% " ++ ENDC ++ " (" ++ BRIGHT_WHITE ++ "50" ++
        ENDC ++ " of " ++ BRIGHT_WHITE ++ "100" ++ ENDC ++ ")" := by
  simp only [progress_line, done_str_of, empty_str_of, done_count_50_10, percent_str_of_50]
  rw [slice_li_eq, slice_ri_eq] <;> decide

theorem length_mk (l : List Char) : (String.mk l).length = l.length := rfl

theorem toStringLen1 (k : ℕ) (h : k < 10) : (toString k).length = 1 := by
  interval_cases k <;> rfl

/-- Full evaluation of the width-10 progress call of the spec's end-to-end
example: the right half of the bar (closing bracket included) is sliced
away, and one backspace is written per character of the 51-character
line. -/
theorem display_progress_eval_50 :
    display_progress 50 100 none 10 '#' '.' "" =
      ⟨("[###" ++ BRIGHT_YELLOW ++ "  50.0% " ++ ENDC ++ " (" ++ BRIGHT_WHITE ++ "50" ++
          ENDC ++ " of " ++ BRIGHT_WHITE ++ "100" ++ ENDC ++ ")") ++
        String.mk (List.replicate 51 '\x08'), 50⟩ := by
  unfold display_progress
  rw [percent_of_50_100]
  norm_num
  rw [progress_line_eval_50]
  decide

/-- C1: the claim reads `format_boolean(False, invert_color=True)` as a
green No.  The code never consults `invert_color` (its own docstring says
True inverts the colors), so the call yields a BRIGHT_RED No; the
uninverted green case behaves as documented. -/
theorem format_boolean_ignores_invert_color :
    format_boolean (.pybool true) true false = BRIGHT_GREEN ++ "Yes" ++ ENDC ∧
    format_boolean (.pybool false) true true = BRIGHT_RED ++ "No" ++ ENDC ∧
    format_boolean (.pybool false) true true ≠ BRIGHT_GREEN ++ "No" ++ ENDC := by
  refine ⟨rfl, rfl, ?_⟩
  decide

/-- C10: the colorizer suppresses only the unknown-key failure of the
substitution step.  A lone opening brace propagates a ValueError, a
positional field propagates an IndexError, while an unknown named
placeholder is silently left verbatim with the reset appended. -/
theorem format_error_propagation :
    format_string "\x7b" = .error .valueError ∧
    format_string "\x7b0\x7d" = .error .indexError ∧
    format_string "\x7bUNKNOWN\x7d" = .ok ("\x7bUNKNOWN\x7d" ++ ENDC) :=
  ⟨rfl, rfl, rfl⟩

/-- C2 counterexample: at percent 50.0 the integer part has 2 digits (in
the 1-to-3 digit range of the claim), yet the percent label is 8
characters long, not 6. -/
theorem percent_label_width_counterexample :
    (percent_str_of 50).length = 8 ∧ (toString (⌊(50:ℚ)⌋).toNat).length = 2 ∧
      ¬ (percent_str_of 50).length = 6 := by
  have h1 : ⌊(50:ℚ)⌋ = 50 := by norm_num
  rw [percent_str_of_50, h1]
  refine ⟨rfl, rfl, by decide⟩

/-- C3 counterexample: the claim promises that a closing bracket remains
visible in the line written by `render_progress(50, 100, None, width=10)`;
the written output contains no closing bracket at all (the right half of
the bar is sliced off by the offset arithmetic of lines 85-86). -/
theorem progress_width10_no_closing_bracket :
    ']' ∉ (display_progress 50 100 none 10 '#' '.' "").out.data := by
  rw [display_progress_eval_50]
  decide

/-- C3 amended: `display_progress 50 100 none 10` computes 5 filled
segments of an interior-width-10 bar, but the splice offsets keep only the
first 4 characters of the bracketed bar, so the written line is exactly
the left fragment of the bar, the colorized centered label, the
`(50 of 100)` suffix (the closing bracket is gone), followed by one
backspace per character of the line; the call returns percent 50. -/
theorem progress_width10_output :
    (display_progress 50 100 none 10 '#' '.' "").out =
      ("[###" ++ BRIGHT_YELLOW ++ "  50.0% " ++ ENDC ++ " (" ++ BRIGHT_WHITE ++ "50" ++
          ENDC ++ " of " ++ BRIGHT_WHITE ++ "100" ++ ENDC ++ ")") ++
        String.mk (List.replicate 51 '\x08') ∧
    done_count (percent_of 50 100) 10 = 5 ∧
    (display_progress 50 100 none 10 '#' '.' "").ret = 50 := by
  rw [display_progress_eval_50, percent_of_50_100, done_count_50_10]
  exact ⟨rfl, rfl, rfl⟩

/-- C4 counterexample: for the width-10 call the composed line has 24
visible characters (escape sequences removed), yet 51 backspaces are
written, one per raw character of the line, so the claim of one backspace
per visible character fails. -/
theorem backspaces_vs_visible_counterexample :
    (display_progress 50 100 none 10 '#' '.' "").out.data.count '\x08' = 51 ∧
    (stripAnsi (progress_line 50 100 (percent_of 50 100) 10 '#' '.' "").data).length = 24 ∧
    (51 : ℕ) ≠ 24 := by
  rw [display_progress_eval_50, percent_of_50_100, progress_line_eval_50]
  refine ⟨by decide, by decide, by decide⟩

theorem percent_of_1_2 : percent_of 1 2 = 50 := by
  unfold percent_of
  have h : ((1:ℕ) : ℚ) / ((2:ℕ) : ℚ) * 100 = ((50 : ℤ) : ℚ) := by norm_num
  rw [h, pyRound1_intCast]
  norm_num

theorem progress_line_length_pos (count total : ℕ) (percent : ℚ) (width : ℕ)
    (cc ec : Char) (ps : String) :
    0 < (progress_line count total percent width cc ec ps).length := by
  unfold progress_line
  simp only [String.length_append]
  have h5 : BRIGHT_YELLOW.length = 5 := rfl
  omega

/-- C4 amended: after a redraw the renderer emits exactly one backspace
per character of the composed line, escape-code characters included (the
backspace count is the raw length of the line, not its visible length). -/
theorem backspace_per_character (count total width : ℕ) (cc ec : Char) (ps : String)
    (hw : width % 2 = 0)
    (hb : '\x08' ∉ (progress_line count total (percent_of count total) width cc ec ps).data) :
    (display_progress count total none width cc ec ps).out.data.count '\x08' =
      (progress_line count total (percent_of count total) width cc ec ps).length := by
  have hw2 : (if width % 2 ≠ 0 then width - 1 else width) = width := by simp [hw]
  have hcond : ¬((none : Option ℚ) = some (percent_of count total) ∧
      percent_of count total ≠ 0) := by simp
  simp only [display_progress, hw2, if_neg hcond]
  rw [String.data_append, List.count_append, List.count_eq_zero_of_not_mem hb]
  simp [List.count_replicate_self]

/-- C4 witness: the general backspace count applies at the width-10 call;
51 backspaces, one per raw character of the 51-character line. -/
theorem backspace_per_character_witness :
    (display_progress 50 100 none 10 '#' '.' "").out.data.count '\x08' =
      (progress_line 50 100 (percent_of 50 100) 10 '#' '.' "").length :=
  backspace_per_character 50 100 10 '#' '.' "" (by decide)
    (by rw [percent_of_50_100, progress_line_eval_50]; decide)

/-- C5: the suppression rule.  When the computed percent equals the
supplied previous percent and is nonzero, nothing is written and the
percent comes back unchanged; a zero percent always redraws, whatever the
previous percent was. -/
theorem suppression_rule (count total width : ℕ) (p : ℚ) (cc ec : Char) (ps : String)
    (htotal : 0 < total) :
    (percent_of count total = p → p ≠ 0 →
      (display_progress count total (some p) width cc ec ps).out = "" ∧
      (display_progress count total (some p) width cc ec ps).ret = p) ∧
    (percent_of count total = 0 →
      ∀ q : Option ℚ, (display_progress count total q width cc ec ps).out ≠ "") := by
  constructor
  · intro hp hp0
    have hcond : some p = some (percent_of count total) ∧ percent_of count total ≠ 0 := by
      rw [hp]
      exact ⟨rfl, hp0⟩
    simp only [display_progress, if_pos hcond]
    exact ⟨by trivial, hp⟩
  · intro hp q
    have hcond : ¬(q = some (percent_of count total) ∧ percent_of count total ≠ 0) := by
      rw [hp]
      simp
    simp only [display_progress, if_neg hcond]
    intro hcontra
    have hlen := congrArg String.length hcontra
    rw [String.length_append] at hlen
    have h0 : ("" : String).length = 0 := rfl
    rw [h0] at hlen
    have hpos := progress_line_length_pos count total (percent_of count total)
      (if width % 2 ≠ 0 then width - 1 else width) cc ec ps
    omega

/-- C5 witness: percent of 1 of 2 is 50.0; calling with previous percent
50 writes nothing and returns 50. -/
theorem suppression_rule_witness :
    (0:ℕ) < 2 ∧
    (display_progress 1 2 (some 50) 50 '#' '.' "").out = "" ∧
    (display_progress 1 2 (some 50) 50 '#' '.' "").ret = 50 :=
  ⟨by norm_num,
   (suppression_rule 1 2 50 50 '#' '.' "" (by norm_num)).1 percent_of_1_2 (by norm_num)⟩

/-- C2 amended: for a percent whose integer part prints with 1 to 3
digits, the label occupies exactly 8 characters: `4 - digits` spaces, the
`digits + 2` characters of the one-decimal value, the percent sign, and
one trailing space.  The percent is `m` tenths. -/
theorem percent_label_width_eight (m : ℕ)
    (h1 : 1 ≤ (toString (m / 10)).length) (h2 : (toString (m / 10)).length ≤ 3) :
    (percent_str_of ((m : ℚ) / 10)).length = 8 := by
  have h10 : ((10:ℚ)) = ((10:ℕ) : ℚ) := by norm_num
  have hfl : (⌊(m : ℚ) / 10⌋).toNat = m / 10 := by
    rw [Int.floor_toNat, h10, Nat.floor_div_nat, Nat.floor_natCast]
  have hm10 : (⌊(m : ℚ) / 10 * 10⌋).toNat = m := by
    rw [div_mul_cancel₀ _ (by norm_num : (10:ℚ) ≠ 0), Int.floor_natCast, Int.toNat_natCast]
  have hlast : (toString (m % 10)).length = 1 :=
    toStringLen1 _ (Nat.mod_lt _ (by norm_num))
  unfold percent_str_of pyStrFloat1
  rw [hfl, hm10]
  simp only [String.length_append, length_mk, List.length_replicate]
  rw [hlast]
  have hdot : ("." : String).length = 1 := rfl
  have hpct : ("%" : String).length = 1 := rfl
  have hsp : (" " : String).length = 1 := rfl
  rw [hdot, hpct, hsp]
  omega

/-- C2 witness: 500 tenths is percent 50.0, whose integer part prints
with 2 digits; its label has exactly 8 characters. -/
theorem percent_label_width_eight_witness :
    1 ≤ (toString (500 / 10)).length ∧ (toString (500 / 10)).length ≤ 3 ∧
      (percent_str_of (((500:ℕ) : ℚ) / 10)).length = 8 :=
  ⟨by decide, by decide, percent_label_width_eight 500 (by decide) (by decide)⟩

theorem pyRoundInt_nonneg (q : ℚ) (h : 0 ≤ q) : 0 ≤ pyRoundInt q := by
  have hf : 0 ≤ ⌊q⌋ := Int.floor_nonneg.mpr h
  unfold pyRoundInt
  split
  · exact hf
  split
  · omega
  split
  · exact hf
  · omega

theorem pyRoundInt_le (q : ℚ) (n : ℤ) (h : q ≤ n) : pyRoundInt q ≤ n := by
  have hf : ⌊q⌋ ≤ n := by
    have hx := Int.floor_le_floor h
    rwa [Int.floor_intCast] at hx
  have hflq : ((⌊q⌋ : ℤ) : ℚ) ≤ q := Int.floor_le q
  have hf2 : 1/2 ≤ q - ⌊q⌋ → ⌊q⌋ + 1 ≤ n := by
    intro hr
    have h2 : ((⌊q⌋ : ℤ) : ℚ) < (n : ℚ) := by linarith
    have h3 : ⌊q⌋ < n := by exact_mod_cast h2
    omega
  unfold pyRoundInt
  split
  · exact hf
  next hr1 =>
    split
    next hr2 => exact hf2 (by linarith)
    next hr2 =>
      split
      · exact hf
      · exact hf2 (by linarith)

theorem percent_of_nonneg (count total : ℕ) : 0 ≤ percent_of count total := by
  unfold percent_of pyRound1
  have h := pyRoundInt_nonneg ((count : ℚ) / (total : ℚ) * 100 * 10) (by positivity)
  exact div_nonneg (by exact_mod_cast h) (by norm_num)

theorem percent_of_le_100 (count total : ℕ) (h1 : 0 < total) (h2 : count ≤ total) :
    percent_of count total ≤ 100 := by
  unfold percent_of pyRound1
  have ht : (0:ℚ) < (total : ℚ) := by exact_mod_cast h1
  have hq1 : (count : ℚ) / (total : ℚ) ≤ 1 := by
    rw [div_le_one ht]
    exact_mod_cast h2
  have hq : (count : ℚ) / (total : ℚ) * 100 ≤ 100 := by nlinarith
  have hr := pyRoundInt_le ((count : ℚ) / (total : ℚ) * 100 * 10) 1000 (by linarith)
  rw [div_le_iff (by norm_num : (0:ℚ) < 10)]
  calc ((pyRoundInt ((count : ℚ) / (total : ℚ) * 100 * 10) : ℤ) : ℚ) ≤ ((1000 : ℤ) : ℚ) := by
        exact_mod_cast hr
    _ = 100 * 10 := by norm_num

theorem done_count_bounds (percent : ℚ) (width : ℕ) (hw : 0 < width)
    (h0 : 0 ≤ percent) (h100 : percent ≤ 100) :
    0 ≤ done_count percent width ∧ done_count percent width ≤ (width : ℤ) := by
  unfold done_count
  have hwq : (0:ℚ) < (width : ℚ) := by exact_mod_cast hw
  have harg : percent / (100 / (width : ℚ)) = percent * width / 100 := by
    rw [div_div_eq_mul_div]
  constructor
  · apply pyRoundInt_nonneg
    rw [harg]
    positivity
  · apply pyRoundInt_le
    rw [harg, div_le_iff (by norm_num : (0:ℚ) < 100)]
    push_cast
    nlinarith

theorem percent_of_double (total : ℕ) (h : 0 < total) : percent_of (2 * total) total = 200 := by
  unfold percent_of
  have ht : ((total : ℕ) : ℚ) ≠ 0 := by
    exact_mod_cast Nat.pos_iff_ne_zero.mp h
  have harg : ((2 * total : ℕ) : ℚ) / (total : ℚ) * 100 = ((200 : ℤ) : ℚ) := by
    push_cast
    field_simp
    ring
  rw [harg, pyRound1_intCast]
  norm_num

theorem done_count_200 (width : ℕ) (hw : 0 < width) : done_count 200 width = 2 * (width : ℤ) := by
  unfold done_count
  have hwq : ((width : ℕ) : ℚ) ≠ 0 := by
    exact_mod_cast Nat.pos_iff_ne_zero.mp hw
  have harg : (200 : ℚ) / (100 / (width : ℚ)) = ((2 * width : ℤ) : ℚ) := by
    push_cast
    field_simp
    ring
  rw [harg, pyRoundInt_intCast]

/-- C9: with a positive total, a positive even width and a count at most
the total, the filled and empty segments together have exactly `width`
characters and the empty count is never negative; once the count exceeds
the total the filled part can exceed `width` while the empty part
collapses to the empty string. -/
theorem bar_segment_width_invariant (count total width : ℕ)
    (htotal : 0 < total) (hcount : count ≤ total) (hw : 0 < width) (hw2 : width % 2 = 0) :
    ((done_str_of (percent_of count total) width '#').length +
      (empty_str_of (percent_of count total) width '.').length = width ∧
      0 ≤ (width : ℤ) - done_count (percent_of count total) width) ∧
    ∃ c t : ℕ, t < c ∧ 0 < t ∧
      width < (done_str_of (percent_of c t) width '#').length ∧
      empty_str_of (percent_of c t) width '.' = "" := by
  refine ⟨?_, 2 * total, total, by omega, htotal, ?_, ?_⟩
  · have hb := done_count_bounds (percent_of count total) width hw
      (percent_of_nonneg count total) (percent_of_le_100 count total htotal hcount)
    unfold done_str_of empty_str_of
    rw [length_mk, length_mk, List.length_replicate, List.length_replicate]
    omega
  · unfold done_str_of
    rw [percent_of_double total htotal, done_count_200 width hw, length_mk,
      List.length_replicate]
    omega
  · unfold empty_str_of
    rw [percent_of_double total htotal, done_count_200 width hw]
    have hz : ((width : ℤ) - 2 * (width : ℤ)).toNat = 0 := by omega
    rw [hz]
    rfl

/-- C9 witness: the invariant instantiated at count 50 of total 100 with
width 10. -/
theorem bar_segment_width_invariant_witness :
    ((done_str_of (percent_of 50 100) 10 '#').length +
      (empty_str_of (percent_of 50 100) 10 '.').length = 10 ∧
      0 ≤ (10 : ℤ) - done_count (percent_of 50 100) 10) ∧
    ∃ c t : ℕ, t < c ∧ 0 < t ∧
      10 < (done_str_of (percent_of c t) 10 '#').length ∧
      empty_str_of (percent_of c t) 10 '.' = "" :=
  bar_segment_width_invariant 50 100 10 (by norm_num) (by norm_num) (by norm_num) (by norm_num)

/-- C7 counterexample: the loop condition compares the uppercased input
against the legal answers as written, so with legal answers ["yes"]
neither the input "yes" nor "YES" is ever accepted (the loop consumes all
input and keeps waiting), contradicting case-insensitive matching. -/
theorem case_sensitive_legal_counterexample :
    multiple_choice_user_input ["yes"] [] none ["yes"] = none ∧
    multiple_choice_user_input ["yes"] [] none ["YES"] = none :=
  ⟨rfl, rfl⟩

/-- C7 amended: the input is uppercased and compared verbatim against the
legal-answer list (matching is case-insensitive in the input only; a legal
answer that is not written in upper case can never match) and against the
uppercased alias keys; an empty input resolves to the uppercased default
when one is set; an alias match returns the uppercased alias target, and a
legal match returns the uppercased resolved input. -/
theorem input_matching_rule (legal : List String) (alt : List (String × String))
    (d : Option String) (line : String)
    (h1 : "" ∉ legal) (h2 : "" ∉ mc_alt_options alt) :
    ((multiple_choice_user_input legal alt d [line]).isSome ↔
      (pyUpper (mc_resolved d line) ∈ legal ∨
        pyUpper (mc_resolved d line) ∈ mc_alt_options alt)) ∧
    (pyUpper (mc_resolved d line) ∈ legal →
      pyUpper (mc_resolved d line) ∉ mc_alt_options alt →
      multiple_choice_user_input legal alt d [line] =
        some (pyUpper (mc_resolved d line))) ∧
    (pyUpper (mc_resolved d line) ∈ mc_alt_options alt →
      multiple_choice_user_input legal alt d [line] =
        some (pyUpper (((mc_alt_upper alt).lookup (pyUpper (mc_resolved d line))).getD
          (mc_resolved d line)))) := by
  have h0 : ¬(pyUpper "" ∈ legal ∨ pyUpper "" ∈ mc_alt_options alt) := by
    rw [show pyUpper "" = "" from rfl]
    exact not_or.mpr ⟨h1, h2⟩
  by_cases hacc : pyUpper (mc_resolved d line) ∈ legal ∨
      pyUpper (mc_resolved d line) ∈ mc_alt_options alt
  · have hloop : mc_loop legal (mc_alt_options alt) d [line] "" = some (mc_resolved d line) := by
      unfold mc_loop
      rw [if_neg h0]
      unfold mc_loop
      rw [if_pos hacc]
    unfold multiple_choice_user_input
    rw [hloop]
    refine ⟨by simp [hacc], ?_, ?_⟩
    · intro hl hna
      simp [hna]
    · intro ha
      simp [ha]
  · have hloop : mc_loop legal (mc_alt_options alt) d [line] "" = none := by
      unfold mc_loop
      rw [if_neg h0]
      unfold mc_loop
      rw [if_neg hacc]
    unfold multiple_choice_user_input
    rw [hloop]
    refine ⟨by simp [hacc], ?_, ?_⟩
    · intro hl hna
      exact absurd (Or.inl hl) hacc
    · intro ha
      exact absurd (Or.inr ha) hacc

/-- C7 witness: with legal answers YES and NO, alias Y for YES and default
"yes", the input "y" is accepted through the alias and the call returns
"YES". -/
theorem input_matching_rule_witness :
    multiple_choice_user_input ["YES", "NO"] [("Y", "YES")] (some "yes") ["y"] = some "YES" :=
  ((input_matching_rule ["YES", "NO"] [("Y", "YES")] (some "yes") "y"
    (by decide) (by decide)).2.2 (by decide)).trans (by decide)

/-! ## Lemmas about replace2 and the formatter -/

theorem replace2_id_of_head_not_mem (a b : Char) (new : List Char) (s : List Char) :
    a ∉ s → replace2 a b new s = s := by
  induction s using replace2.induct a b new with
  | case1 => intro _; rfl
  | case2 c => intro _; rfl
  | case3 c d rest hcd ih =>
    intro h
    rcases hcd with ⟨hc, _⟩
    subst hc
    exact absurd (List.mem_cons_self c (d :: rest)) h
  | case4 c d rest hcd ih =>
    intro h
    have h2 : a ∉ d :: rest := fun hm => h (List.mem_cons_of_mem c hm)
    simp only [replace2, if_neg hcd]
    rw [ih h2]

theorem replace2_not_mem (a b x : Char) (new : List Char) (hn : x ∉ new) (s : List Char) :
    x ∉ s → x ∉ replace2 a b new s := by
  induction s using replace2.induct a b new with
  | case1 => intro _; simp [replace2]
  | case2 c => intro hs; simpa [replace2] using hs
  | case3 c d rest hcd ih =>
    intro hs
    have hrest : x ∉ rest := fun hm => hs (by simp [hm])
    simp only [replace2, if_pos hcd]
    intro hm
    rcases List.mem_append.mp hm with h | h
    · exact hn h
    · exact ih hrest h
  | case4 c d rest hcd ih =>
    intro hs
    have h2 : x ∉ d :: rest := fun hm => hs (List.mem_cons_of_mem c hm)
    have hxc : x ≠ c := fun he => hs (by rw [he]; exact List.mem_cons_self c (d :: rest))
    simp only [replace2, if_neg hcd]
    intro hm
    rcases List.mem_cons.mp hm with h | h
    · exact hxc h
    · exact ih h2 h

theorem replace2_id_of_not_hasPair (a b : Char) (new : List Char) (s : List Char) :
    hasPair a b s = false → replace2 a b new s = s := by
  induction s using replace2.induct a b new with
  | case1 => intro _; rfl
  | case2 c => intro _; rfl
  | case3 c d rest hcd ih =>
    intro h
    simp only [hasPair, if_pos hcd] at h
    exact Bool.noConfusion h
  | case4 c d rest hcd ih =>
    intro h
    simp only [hasPair, if_neg hcd] at h
    simp only [replace2, if_neg hcd]
    rw [ih h]

theorem hasPair_append (a b : Char) (v : List Char) (hv : hasPair a b v = false)
    (hb : v.head? ≠ some b) (u : List Char) :
    hasPair a b u = false → hasPair a b (u ++ v) = false := by
  induction u using replace2.induct a b [] with
  | case1 => intro _; simpa using hv
  | case2 c =>
    intro _
    cases v with
    | nil => rfl
    | cons e v2 =>
      have he : ¬(c = a ∧ e = b) := by
        rintro ⟨_, hee⟩
        exact hb (by simp [hee])
      simp only [List.singleton_append, hasPair, if_neg he]
      exact hv
  | case3 c d rest hcd ih =>
    intro h
    simp only [hasPair, if_pos hcd] at h
    exact Bool.noConfusion h
  | case4 c d rest hcd ih =>
    intro h
    simp only [hasPair, if_neg hcd] at h
    have ih2 := ih h
    simp only [List.cons_append] at ih2 ⊢
    simp only [hasPair, if_neg hcd]
    exact ih2

theorem hasPair_replace2_self (s : List Char) :
    hasPair '\\' 'n' (replace2 '\\' 'n' ['\n'] s) = false := by
  induction s using replace2.induct '\\' 'n' ['\n'] with
  | case1 => rfl
  | case2 c => rfl
  | case3 c d rest hcd ih =>
    simp only [replace2, if_pos hcd]
    cases hR : replace2 '\\' 'n' ['\n'] rest with
    | nil => rfl
    | cons e R2 =>
      rw [hR] at ih
      have hne : ¬('\n' = '\\' ∧ e = 'n') := by
        rintro ⟨h1, _⟩
        exact absurd h1 (by decide)
      simp only [List.singleton_append, hasPair, if_neg hne]
      exact ih
  | case4 c d rest hcd ih =>
    simp only [replace2, if_neg hcd]
    cases hR : replace2 '\\' 'n' ['\n'] (d :: rest) with
    | nil => rfl
    | cons e R2 =>
      rw [hR] at ih
      have hhead : e = '\n' ∨ e = d := by
        cases rest with
        | nil =>
          have : replace2 '\\' 'n' ['\n'] [d] = [d] := rfl
          rw [this] at hR
          injection hR with h1 _
          exact Or.inr h1.symm
        | cons g rest2 =>
          by_cases hdg : d = '\\' ∧ g = 'n'
          · simp only [replace2, if_pos hdg, List.singleton_append] at hR
            injection hR with h1 _
            exact Or.inl h1.symm
          · simp only [replace2, if_neg hdg] at hR
            injection hR with h1 _
            exact Or.inr h1.symm
      have hcond : ¬(c = '\\' ∧ e = 'n') := by
        rintro ⟨hcb, hen⟩
        rcases hhead with h | h
        · rw [h] at hen
          exact absurd hen (by decide)
        · exact hcd ⟨hcb, by rw [← h]; exact hen⟩
      simp only [hasPair, if_neg hcond]
      exact ih

theorem pyFormatKwF_ok_no_braces (f : ℕ) (s : List Char) (hf : s.length ≤ f)
    (h1 : '{' ∉ s) (h2 : '}' ∉ s) : pyFormatKwF f s = .ok s := by
  induction f generalizing s with
  | zero =>
    cases s with
    | nil => rfl
    | cons c r => simp at hf
  | succ f ih =>
    cases s with
    | nil => rfl
    | cons c r =>
      have hc1 : c ≠ '{' := by
        intro he
        exact h1 (by rw [he] at *; exact List.mem_cons_self _ _)
      have hc2 : c ≠ '}' := by
        intro he
        exact h2 (by rw [he] at *; exact List.mem_cons_self _ _)
      have hr1 : '{' ∉ r := fun hm => h1 (List.mem_cons_of_mem c hm)
      have hr2 : '}' ∉ r := fun hm => h2 (List.mem_cons_of_mem c hm)
      have hlen : r.length ≤ f := by simpa using hf
      simp only [pyFormatKwF, if_neg hc1, if_neg hc2]
      rw [ih r hlen hr1 hr2]
      rfl

/-- C8: on placeholder-free input (no brace characters) the colorizer is
idempotent up to one extra reset code: a second application only appends
one more ENDC. -/
theorem colorize_idempotent_mod_reset (s : String)
    (h1 : '{' ∉ s.data) (h2 : '}' ∉ s.data) :
    ∃ t : String, format_string s = .ok t ∧ format_string t = .ok (t ++ ENDC) := by
  obtain ⟨u, hU⟩ : ∃ u, replace2 '\\' 'n' ['\n'] s.data = u := ⟨_, rfl⟩
  have hu1 : '{' ∉ u := hU ▸ replace2_not_mem '\\' 'n' '{' ['\n'] (by decide) s.data h1
  have hu2 : '}' ∉ u := hU ▸ replace2_not_mem '\\' 'n' '}' ['\n'] (by decide) s.data h2
  have hubn : hasPair '\\' 'n' u = false := hU ▸ hasPair_replace2_self s.data
  have hcol : collapse s = String.mk u := by
    unfold collapse
    rw [hU, replace2_id_of_head_not_mem '{' '{' ['{'] u hu1,
      replace2_id_of_head_not_mem '}' '}' ['}'] u hu2]
  have hfmt : pyFormatKw u = .ok u :=
    pyFormatKwF_ok_no_braces u.length u le_rfl hu1 hu2
  refine ⟨String.mk u ++ ENDC, ?_, ?_⟩
  · unfold format_string
    rw [hcol]
    have hsc : pyFormatKw (String.mk u).data = Except.ok u := hfmt
    rw [hsc]
  · have hdata : (String.mk u ++ ENDC).data = u ++ ENDC.data := String.data_append _ _
    have hb1 : '{' ∉ u ++ ENDC.data := by
      intro hm
      rcases List.mem_append.mp hm with h | h
      · exact hu1 h
      · revert h
        decide
    have hb2 : '}' ∉ u ++ ENDC.data := by
      intro hm
      rcases List.mem_append.mp hm with h | h
      · exact hu2 h
      · revert h
        decide
    have hcat : hasPair '\\' 'n' (u ++ ENDC.data) = false :=
      hasPair_append '\\' 'n' ENDC.data (by decide) (by decide) u hubn
    have hcol2 : collapse (String.mk u ++ ENDC) = String.mk (u ++ ENDC.data) := by
      unfold collapse
      rw [hdata, replace2_id_of_not_hasPair '\\' 'n' ['\n'] _ hcat,
        replace2_id_of_head_not_mem '{' '{' ['{'] _ hb1,
        replace2_id_of_head_not_mem '}' '}' ['}'] _ hb2]
    have hfmt2 : pyFormatKw (u ++ ENDC.data) = .ok (u ++ ENDC.data) :=
      pyFormatKwF_ok_no_braces (u ++ ENDC.data).length _ le_rfl hb1 hb2
    unfold format_string
    rw [hcol2]
    have hsc2 : pyFormatKw (String.mk (u ++ ENDC.data)).data = Except.ok (u ++ ENDC.data) :=
      hfmt2
    rw [hsc2]
    rfl

/-- C8 witness: the brace-free string with a literal backslash-n collapses
to a newline; colorizing twice only appends one extra reset. -/
theorem colorize_idempotent_mod_reset_witness :
    '{' ∉ ("a\\nb" : String).data ∧ '}' ∉ ("a\\nb" : String).data ∧
    ∃ t : String, format_string "a\\nb" = .ok t ∧ format_string t = .ok (t ++ ENDC) :=
  ⟨by decide, by decide, colorize_idempotent_mod_reset "a\\nb" (by decide) (by decide)⟩

theorem parseField_length (s : List Char) :
    ∀ name rest, parseField s = some (name, rest) → rest.length < s.length := by
  induction s with
  | nil =>
    intro name rest h
    exact absurd h (by simp [parseField])
  | cons c r ih =>
    intro name rest h
    simp only [parseField] at h
    by_cases h1 : c = '}'
    · rw [if_pos h1] at h
      injection h with h2
      injection h2 with _ h3
      rw [← h3]
      simp
    · rw [if_neg h1] at h
      by_cases h2 : c = '{'
      · rw [if_pos h2] at h
        exact absurd h (by simp)
      · rw [if_neg h2] at h
        cases hP : parseField r with
        | none =>
          rw [hP] at h
          exact absurd h (by simp)
        | some pr =>
          obtain ⟨n2, r2⟩ := pr
          rw [hP] at h
          injection h with h3
          injection h3 with _ h4
          have := ih n2 r2 hP
          rw [← h4]
          simp only [List.length_cons]
          omega

/-- Driving lemma for the amended unknown-placeholder claim: on a
well-formed named template that mentions at least one name outside the
palette, the formatter fails with exactly a KeyError. -/
theorem pyFormatKwF_keyError (f : ℕ) : ∀ s : List Char, s.length ≤ f →
    wfNamedF f s = true → hasUnknownF f s = true →
    pyFormatKwF f s = .error .keyError := by
  induction f with
  | zero =>
    intro s hlen hwf hun
    cases s with
    | nil => exact absurd hun (by simp [hasUnknownF])
    | cons c r => simp at hlen
  | succ f ih =>
    intro s hlen hwf hun
    cases s with
    | nil => exact absurd hun (by simp [hasUnknownF])
    | cons c r =>
      simp only [pyFormatKwF]
      simp only [wfNamedF] at hwf
      simp only [hasUnknownF] at hun
      have hrlen : r.length ≤ f := by
        simp only [List.length_cons] at hlen
        omega
      by_cases hc1 : c = '{'
      · rw [if_pos hc1] at hwf hun ⊢
        by_cases hh : r.head? = some '{'
        · rw [if_pos hh] at hwf
          exact absurd hwf (by simp)
        · rw [if_neg hh] at hwf hun ⊢
          cases hP : parseField r with
          | none =>
            rw [hP] at hwf
            exact absurd hwf (by simp)
          | some pr =>
            obtain ⟨name, rest⟩ := pr
            rw [hP] at hwf hun
            have hwf2 : (!name.isEmpty && name.all isIdentChar && !name.all Char.isDigit &&
                wfNamedF f rest) = true := hwf
            have hun2 : ((paletteLookup (String.mk name)).isNone || hasUnknownF f rest) = true :=
              hun
            simp only [Bool.and_eq_true, Bool.not_eq_true'] at hwf2
            obtain ⟨⟨⟨hne, hid⟩, hnd⟩, hwfr⟩ := hwf2
            have hidx : ¬(name.isEmpty || name.all Char.isDigit) = true := by
              simp [hne, hnd]
            show (if (name.isEmpty || name.all Char.isDigit) = true then
                Except.error PyErr.indexError
              else
                match paletteLookup (String.mk name) with
                | some code => Except.map (fun l => code.data ++ l) (pyFormatKwF f rest)
                | none => Except.error PyErr.keyError) = Except.error PyErr.keyError
            rw [if_neg hidx]
            cases hL : paletteLookup (String.mk name) with
            | some code =>
              rw [hL] at hun2
              have hun3 : hasUnknownF f rest = true := by simpa using hun2
              have hrest : rest.length ≤ f := by
                have := parseField_length r name rest hP
                omega
              rw [ih rest hrest hwfr hun3]
              rfl
            | none => rfl
      · rw [if_neg hc1] at hwf hun ⊢
        by_cases hc2 : c = '}'
        · rw [if_pos hc2] at hwf
          exact absurd hwf (by simp)
        · rw [if_neg hc2] at hwf hun ⊢
          rw [ih r hrlen hwf hun]
          rfl

/-- C6 counterexample: the string containing only the placeholder with
name 0 has an unrecognized placeholder name, yet the colorizer raises (an
IndexError propagates) instead of returning the string untouched. -/
theorem unknown_placeholder_counterexample :
    format_string "\x7b0\x7d" = .error .indexError ∧ paletteLookup "0" = none :=
  ⟨rfl, rfl⟩

/-- C6 amended: for every input whose collapsed form is a well-formed
template of named (identifier, non-numeric) fields with at least one name
outside the palette, the substitution fails as a whole with a silently
caught KeyError: no substitution at all is performed, every placeholder is
left as written after brace collapsing, and the reset is appended. -/
theorem unknown_named_placeholder_silent (s : String)
    (hwf : wfNamed (collapse s).data = true)
    (hun : hasUnknown (collapse s).data = true) :
    format_string s = .ok (collapse s ++ ENDC) := by
  unfold format_string pyFormatKw
  rw [pyFormatKwF_keyError (collapse s).data.length (collapse s).data le_rfl hwf hun]

/-- C6 witness: the template that writes UNKNOWN in doubled braces
collapses to a single-braced unknown placeholder and is returned verbatim
with the reset appended. -/
theorem unknown_named_placeholder_silent_witness :
    wfNamed (collapse "\x7b\x7bUNKNOWN\x7d\x7d").data = true ∧
    hasUnknown (collapse "\x7b\x7bUNKNOWN\x7d\x7d").data = true ∧
    format_string "\x7b\x7bUNKNOWN\x7d\x7d" =
      .ok (collapse "\x7b\x7bUNKNOWN\x7d\x7d" ++ ENDC) :=
  ⟨by decide, by decide,
   unknown_named_placeholder_silent "\x7b\x7bUNKNOWN\x7d\x7d" (by decide) (by decide)⟩
